import Mathlib

/-!
Verification of the two pipelines of this repository against its
natural-language specification.

Pipeline A (`3. Pandas/pandas_copilot.py`): the genre ranker
`top_genres_top_movies`, which ranks genres by record count and returns the
top movies per genre ordered by `star_rating`.

Pipeline B (`Case Study - Igrzyska Olimpijskie/case_study_raport.py`): the
date validator `parse_validate_date` (Polish month-name normalisation,
bounds checks), the module-level date-range checks, and the series builder
(sort of the fetched gold-price records by date).

Modelling conventions:
* pandas `sort_values` is modelled as a stable sort by the named key.
  pandas implements a descending sort by reversing the input, sorting
  ascending, and reversing the resulting permutation, so with a stable
  underlying sort the records that compare equal keep their original
  relative order, for both ascending and descending sorts; `nlargest`
  (keep='first') explicitly uses a stable mergesort.
* `Series.value_counts()` followed by `.nlargest(n)` is modelled as the
  stable descending sort, by count, of the distinct values in first
  appearance order, followed by `take n`.
* machine floats (`star_rating`, `cena`) are modelled as rationals,
  missing values (`NaN`) as `Option.none`.
* `datetime.date` is modelled as a year/month/day triple of naturals with
  Python's field-by-field comparison; `timedelta.days` via a day-count
  function (the standard civil-from-days algorithm).
* `re.sub(r"\b(tok1|...|tokN)\b", repl, s)` on the normalised (lower-case)
  string replaces exactly the maximal word-character runs that equal one
  of the tokens, because every token consists of word characters and both
  ends of a match must be word boundaries; it is modelled by a scanner
  over the characters that does precisely that.
* `pd.to_datetime(s, dayfirst=True)` is modelled only on the string shapes
  the claims exercise: `<digits> <month name> <digits>` parsed as
  day, month, year with a case-insensitive English month-name lookup.
-/

namespace S2P

/-! ## Generic list helpers -/

/-- Insert `a` into `l` in front of the first element `b` with `le a b`.
With `le a b = true` on ties this is the stable insertion step. -/
def insertS (le : α → α → Bool) (a : α) : List α → List α
  | [] => [a]
  | b :: l => if le a b then a :: b :: l else b :: insertS le a l

/-- Stable sort by the boolean comparison `le` (insertion sort, which is
extensionally the stable sort used to model pandas sorting). -/
def stableSort (le : α → α → Bool) : List α → List α
  | [] => []
  | a :: l => insertS le a (stableSort le l)

/-- Worker of `uniqueInOrder`: keep the elements not seen yet. -/
def uniqueAux [DecidableEq α] (seen : List α) : List α → List α
  | [] => []
  | a :: l => if a ∈ seen then uniqueAux seen l else a :: uniqueAux (a :: seen) l

/-- The distinct elements of a list, in order of first appearance (the key
order produced by the counting step of `Series.value_counts`). -/
def uniqueInOrder [DecidableEq α] (l : List α) : List α := uniqueAux [] l

/-- Concatenation of the images of `f` (the `pd.concat(frames)` step). -/
def cmap (f : α → List β) : List α → List β
  | [] => []
  | a :: l => f a ++ cmap f l

/-- Association-list lookup with decidable key equality. -/
def lookupL [DecidableEq κ] (k : κ) : List (κ × β) → Option β
  | [] => none
  | (k', v) :: rest => if k = k' then some v else lookupL k rest

/-- Does `s` start with `pat`? -/
def startsWithL [DecidableEq α] : List α → List α → Bool
  | [], _ => true
  | _ :: _, [] => false
  | p :: ps, c :: cs => decide (p = c) && startsWithL ps cs

/-- Does `s` contain `pat` as a contiguous run (used to state that an error
message names a given piece of data)? -/
def containsSub [DecidableEq α] (pat : List α) : List α → Bool
  | [] => pat.isEmpty
  | c :: cs => startsWithL pat (c :: cs) || containsSub pat cs

/-! ## Calendar dates -/

/-- Model of Python `datetime.date`. -/
structure Date where
  year : Nat
  month : Nat
  day : Nat
deriving DecidableEq, Repr

/-- Python's `<` on `datetime.date` (field-by-field comparison). -/
def Date.ltB (a b : Date) : Bool :=
  a.year < b.year ||
    (a.year == b.year &&
      (a.month < b.month || (a.month == b.month && a.day < b.day)))

/-- Python's `<=` on `datetime.date`. -/
def Date.leB (a b : Date) : Bool := !Date.ltB b a

/-- Day count of a civil date (Howard Hinnant's `days_from_civil`, without
the epoch shift; only differences of the counts are ever used, matching
Python's `(d2 - d1).days`). -/
def civilToDays (dt : Date) : Nat :=
  let y := if dt.month ≤ 2 then dt.year - 1 else dt.year
  let era := y / 400
  let yoe := y % 400
  let mp := (dt.month + 9) % 12
  let doy := (153 * mp + 2) / 5 + (dt.day - 1)
  let doe := yoe * 365 + yoe / 4 - yoe / 100 + doy
  era * 146097 + doe

/-- Python's `(e - s).days` for dates. -/
def daysBetween (s e : Date) : Int :=
  (civilToDays e : Int) - (civilToDays s : Int)

/-! ## Date Validator (`parse_validate_date`) -/

/-- ASCII digit test (`0` to `9`). -/
def isDigitB (c : Char) : Bool := 48 ≤ c.toNat && c.toNat ≤ 57

/-- The characters stripped by `str.strip()` that can occur here. -/
def isStripped (c : Char) : Bool :=
  c == ' ' || c == '\t' || c == '\r' || c == '\n'

/-- `str.strip()`: drop whitespace from both ends. -/
def trimChars (l : List Char) : List Char :=
  ((l.dropWhile isStripped).reverse.dropWhile isStripped).reverse

/-- Polish letters and their images under `_normalize`: NFKD decomposition
followed by removal of combining marks and `.lower()`.  `ł`/`Ł` have no
NFKD decomposition, so they are only lower-cased. -/
def polishPairs : List (Char × Char) :=
  [('ą', 'a'), ('Ą', 'a'), ('ć', 'c'), ('Ć', 'c'), ('ę', 'e'), ('Ę', 'e'),
   ('ł', 'ł'), ('Ł', 'ł'), ('ń', 'n'), ('Ń', 'n'), ('ó', 'o'), ('Ó', 'o'),
   ('ś', 's'), ('Ś', 's'), ('ź', 'z'), ('Ź', 'z'), ('ż', 'z'), ('Ż', 'z')]

/-- One character of `_normalize`: strip the diacritic if any, lower-case. -/
def polishFoldChar (c : Char) : Char :=
  match lookupL c polishPairs with
  | some b => b
  | none => c.toLower

/-- `_normalize`: diacritic removal plus lower-casing, character by
character. -/
def normalizeChars (l : List Char) : List Char := l.map polishFoldChar

/-- Python `\w` (word character) on the alphabet that can appear in a
normalised date string: ASCII letters, digits, underscore, and non-ASCII
letters such as `ł`. -/
def isWordCharB (c : Char) : Bool :=
  (48 ≤ c.toNat && c.toNat ≤ 57) || (97 ≤ c.toNat && c.toNat ≤ 122) ||
    (65 ≤ c.toNat && c.toNat ≤ 90) || c == '_' || 127 < c.toNat

/-- The `month_map` of `parse_validate_date`: Polish month tokens
(nominative, genitive and abbreviated forms, already normalised) to the
English month names substituted for them. -/
def monthPairs : List (List Char × List Char) :=
  [("styczen".data, "January".data), ("stycznia".data, "January".data),
   ("sty".data, "January".data),
   ("luty".data, "February".data), ("lutego".data, "February".data),
   ("lut".data, "February".data),
   ("marzec".data, "March".data), ("marca".data, "March".data),
   ("mar".data, "March".data),
   ("kwiecien".data, "April".data), ("kwietnia".data, "April".data),
   ("kwi".data, "April".data),
   ("maj".data, "May".data), ("maja".data, "May".data),
   ("czerwiec".data, "June".data), ("czerwca".data, "June".data),
   ("cze".data, "June".data),
   ("lipiec".data, "July".data), ("lipca".data, "July".data),
   ("lip".data, "July".data),
   ("sierpien".data, "August".data), ("sierpnia".data, "August".data),
   ("sie".data, "August".data),
   ("wrzesien".data, "September".data), ("wrzesnia".data, "September".data),
   ("wrz".data, "September".data),
   ("pazdziernik".data, "October".data), ("pazdziernika".data, "October".data),
   ("paz".data, "October".data), ("pazdz".data, "October".data),
   ("listopad".data, "November".data), ("listopada".data, "November".data),
   ("lis".data, "November".data),
   ("grudzien".data, "December".data), ("grudnia".data, "December".data),
   ("gru".data, "December".data)]

/-- Replacement applied to one maximal word-character run: substitute the
English month name when the run is a recognised Polish month token. -/
def applyWord (w : List Char) : List Char :=
  match lookupL w monthPairs with
  | some e => e
  | none => w

/-- Scanner implementing
`re.sub(r"\b(<tokens>)\b", <English name>, s, flags=re.IGNORECASE)` on the
normalised string: accumulate the current word-character run (reversed) in
`acc`, and flush it through `applyWord` at each non-word character and at
the end. -/
def replScan : List Char → List Char → List Char
  | [], acc => applyWord acc.reverse
  | c :: cs, acc =>
    if isWordCharB c then replScan cs (c :: acc)
    else applyWord acc.reverse ++ c :: replScan cs []

/-- The month-substitution step of `parse_validate_date`. -/
def replaceMonths (l : List Char) : List Char := replScan l []

/-- Tokeniser of the date parser: the maximal word-character runs of the
string, in order. -/
def tokScan : List Char → List Char → List (List Char)
  | [], acc => if acc.isEmpty then [] else [acc.reverse]
  | c :: cs, acc =>
    if isWordCharB c then tokScan cs (c :: acc)
    else if acc.isEmpty then tokScan cs [] else acc.reverse :: tokScan cs []

/-- All word-character runs of a string. -/
def tokensOf (l : List Char) : List (List Char) := tokScan l []

/-- English month names (lower-case) to month numbers, for the
case-insensitive month-name lookup of the date parser. -/
def engMonthPairs : List (List Char × Nat) :=
  [("january".data, 1), ("february".data, 2), ("march".data, 3),
   ("april".data, 4), ("may".data, 5), ("june".data, 6), ("july".data, 7),
   ("august".data, 8), ("september".data, 9), ("october".data, 10),
   ("november".data, 11), ("december".data, 12)]

/-- Numeric value of a digit string. -/
def natFromDigits (l : List Char) : Nat :=
  l.foldl (fun n c => n * 10 + (c.toNat - 48)) 0

/-- Gregorian leap year. -/
def isLeapB (y : Nat) : Bool := y % 4 == 0 && (y % 100 != 0 || y % 400 == 0)

/-- Number of days of a month. -/
def daysInMonthN (y m : Nat) : Nat :=
  if m = 2 then (if isLeapB y then 29 else 28)
  else if m = 4 || m = 6 || m = 9 || m = 11 then 30
  else 31

/-- Parse one day-token, month-token, year-token triple (the worker of the
`pd.to_datetime` model): the day and year tokens must be digit runs, the
month token an English month name up to letter case, and the day must fit
the month. -/
def parseTriple (ds ms ys : List Char) : Option Date :=
  if ds.isEmpty || !ds.all isDigitB || ys.isEmpty || !ys.all isDigitB then
    none
  else
    match lookupL (ms.map Char.toLower) engMonthPairs with
    | some m =>
      let d := natFromDigits ds
      let y := natFromDigits ys
      if 1 ≤ d ∧ d ≤ daysInMonthN y m then some ⟨y, m, d⟩ else none
    | none => none

/-- Model of `pd.to_datetime(s, dayfirst=True, errors='raise').date()`
restricted to the shapes produced by the claims: a day number, an English
month name (any letter case) and a year number, separated by non-word
characters. -/
def parseDMY (l : List Char) : Option Date :=
  match tokensOf l with
  | [ds, ms, ys] => parseTriple ds ms ys
  | _ => none

/-- The input to `parse_validate_date`: already a `date`/`datetime`, or a
string. -/
inductive DateValue where
  | asDate (d : Date)
  | asStr (s : String)

/-- The failure cases of the Date Validator, carrying the user-facing
message shown in the sidebar (`InvalidDateFormat` and `DateOutOfRange` of
the specification's taxonomy). -/
inductive DVError where
  | invalidDateFormat (msg : String)
  | dateOutOfRange (msg : String)
deriving DecidableEq, Repr

/-- Left-pad a string with zeros. -/
def padZeros (w : Nat) (s : String) : String :=
  String.mk (List.replicate (w - s.length) '0') ++ s

/-- `date.isoformat()`. -/
def isoStr (d : Date) : String :=
  padZeros 4 (Nat.repr d.year) ++ "-" ++ padZeros 2 (Nat.repr d.month)
    ++ "-" ++ padZeros 2 (Nat.repr d.day)

/-- The message shown when the parsed date precedes the configured minimum. -/
def minMsg (label : String) (m : Date) : String :=
  label ++ " nie może być wcześniej niż " ++ isoStr m

/-- The message shown when the parsed date follows the configured maximum. -/
def maxMsg (label : String) (m : Date) : String :=
  label ++ " nie może być późniejsza niż " ++ isoStr m

/-- The raw value echoed in the parse-failure message. -/
def rawOf : DateValue → String
  | .asDate d => isoStr d
  | .asStr s => s

/-- The parsing stage of `parse_validate_date`: a `date`/`datetime` value
is converted directly, a string goes through strip, `_normalize`, Polish
month substitution and `pd.to_datetime(..., dayfirst=True)`. -/
def pvdParse : DateValue → Option Date
  | .asDate d => some d
  | .asStr s => parseDMY (replaceMonths (normalizeChars (trimChars s.data)))

/-- The `max_date` check of `parse_validate_date` (runs after the
`min_date` check). -/
def checkMax (parsed : Date) (label : String) : Option Date → Except DVError Date
  | some m =>
    if Date.ltB m parsed then .error (.dateOutOfRange (maxMsg label m))
    else .ok parsed
  | none => .ok parsed

/-- `parse_validate_date(value, label, min_date, max_date)`: parse the
input, then check the configured bounds in order; on failure the sidebar
error message is returned (the call never returns in Python because of
`st.stop()`; the model returns the error). -/
def parse_validate_date (value : DateValue) (label : String)
    (minD maxD : Option Date) : Except DVError Date :=
  match pvdParse value with
  | none =>
    .error (.invalidDateFormat
      ("Błędna data dla '" ++ label ++ "': " ++ rawOf value))
  | some parsed =>
    match minD with
    | some m =>
      if Date.ltB parsed m then .error (.dateOutOfRange (minMsg label m))
      else checkMax parsed label maxD
    | none => checkMax parsed label maxD

/-! ## Module-level range checks of the dashboard -/

/-- Earliest date the NBP archive has data for (`min_api_date`). -/
def minApiDate : Date := ⟨2013, 1, 2⟩

/-- The failure cases of the module-level range validation. -/
inductive RangeError where
  | boundsError (e : DVError)
  | startAfterEnd
  | spanTooLarge (days : Int)
deriving DecidableEq, Repr

/-- The module-level validation of the selected range: validate each date
against `[min_api_date, today]` via `parse_validate_date`, then reject
`start > end`, then reject a span of more than 93 days. -/
def validateRange (s e today : Date) : Except RangeError Unit :=
  match parse_validate_date (.asDate s) "Data początkowa"
      (some minApiDate) (some today) with
  | .error err => .error (.boundsError err)
  | .ok s' =>
    match parse_validate_date (.asDate e) "Data końcowa"
        (some minApiDate) (some today) with
    | .error err => .error (.boundsError err)
    | .ok e' =>
      if Date.ltB e' s' then .error .startAfterEnd
      else if 93 < daysBetween s' e' then
        .error (.spanTooLarge (daysBetween s' e'))
      else .ok ()

/-! ## Genre Ranker (`top_genres_top_movies`) -/

/-- One row of the movies dataset.  Only the attributes listed in the
frame's `columns` are meaningful. -/
structure MovieRow where
  title : String
  star_rating : Option ℚ
  duration : Option ℚ
  genre : String
deriving DecidableEq, Repr

/-- A pandas DataFrame of movie rows: a schema plus the rows. -/
structure MDataFrame where
  columns : List String
  rows : List MovieRow
deriving DecidableEq, Repr

/-- The sort key `_sr = star_rating.fillna(-1)`. -/
def effKey (r : MovieRow) : ℚ := r.star_rating.getD (-1)

/-- Number of rows of a genre (`value_counts` count). -/
def countGenre (rows : List MovieRow) (g : String) : Nat :=
  (rows.filter (fun r => r.genre == g)).length

/-- The genre column as a list. -/
def genreList (df : MDataFrame) : List String :=
  df.rows.map (fun r => r.genre)

/-- `movies['genre'].value_counts().nlargest(top_n_genres).index.tolist()`:
the distinct genres in first-appearance order, stably sorted by descending
count, truncated to `top_n_genres`. -/
def selectedGenres (df : MDataFrame) (nG : Nat) : List String :=
  (stableSort
      (fun g1 g2 => decide (countGenre df.rows g2 ≤ countGenre df.rows g1))
      (uniqueInOrder (genreList df))).take nG

/-- The per-genre block: filter the rows of the genre, sort by
`star_rating.fillna(-1)` descending when the column exists, and take the
first `top_n_movies` rows. -/
def genreGroupRows (df : MDataFrame) (nM : Nat) (g : String) : List MovieRow :=
  (if "star_rating" ∈ df.columns then
      stableSort (fun a b => decide (effKey b ≤ effKey a))
        (df.rows.filter (fun r => r.genre == g))
    else df.rows.filter (fun r => r.genre == g)).take nM

/-- The projected columns: the subset of
`('title', 'star_rating', 'duration', 'genre')` present in the input. -/
def resultColumns (df : MDataFrame) : List String :=
  ["title", "star_rating", "duration", "genre"].filter
    (fun c => decide (c ∈ df.columns))

/-- The failure case of the Genre Ranker (the raised `ValueError`, the
`SchemaError` of the specification's taxonomy). -/
inductive RankError where
  | schemaError (msg : String)
deriving DecidableEq, Repr

/-- The output frame: its schema and its rows, each row carrying the
`genre_group` value inserted at column 0. -/
structure RankedFrame where
  columns : List String
  entries : List (String × MovieRow)
deriving DecidableEq, Repr

/-- `top_genres_top_movies(movies, top_n_genres, top_n_movies)`. -/
def top_genres_top_movies (df : MDataFrame) (nG nM : Nat) :
    Except RankError RankedFrame :=
  if "genre" ∈ df.columns then
    let gs := selectedGenres df nG
    if gs.isEmpty then .ok ⟨[], []⟩
    else
      .ok ⟨"genre_group" :: resultColumns df,
        cmap (fun g => (genreGroupRows df nM g).map (fun r => (g, r))) gs⟩
  else .error (.schemaError "Input DataFrame must contain a 'genre' column")

/-! ## Heap-effect model of `top_genres_top_movies`

Tracks, per pandas operation, whether the object can still share storage
with the `movies` argument, to settle whether the in-place
`sel.insert(0, 'genre_group', g)` can write into the input.  Boolean-mask
selection and `loc`/`head` are treated as potentially sharing (views);
`.copy()`, `assign` and `sort_values` return fresh storage. -/

/-- A frame derived from the input, with a flag: may it share the input's
storage? -/
structure ViewFrame where
  rows : List MovieRow
  sharesInput : Bool

/-- `movies[movies['genre'] == g]` (potentially a view). -/
def maskGenre (df : MDataFrame) (g : String) : ViewFrame :=
  ⟨df.rows.filter (fun r => r.genre == g), true⟩

/-- `.copy()`: fresh storage. -/
def vfCopy (v : ViewFrame) : ViewFrame := ⟨v.rows, false⟩

/-- `assign(_sr=...)` followed by `sort_values('_sr', ascending=False)`
when the rating column exists: both return fresh frames. -/
def vfAssignSort (df : MDataFrame) (v : ViewFrame) : ViewFrame :=
  if "star_rating" ∈ df.columns then
    ⟨stableSort (fun a b => decide (effKey b ≤ effKey a)) v.rows, false⟩
  else v

/-- `.loc[:, cols].head(top_n_movies)`: a view of the same storage. -/
def vfHead (nM : Nat) (v : ViewFrame) : ViewFrame :=
  ⟨v.rows.take nM, v.sharesInput⟩

/-- Does the in-place `sel.insert` of the iteration for genre `g` write
into the input's storage? -/
def perGenreInsertWrites (df : MDataFrame) (nM : Nat) (g : String) : Bool :=
  (vfCopy (vfHead nM (vfAssignSort df (vfCopy (maskGenre df g))))).sharesInput

/-- The ranker together with the final state of its `movies` argument: if
any iteration's `insert` wrote shared storage, the input would carry the
extra `genre_group` column afterwards. -/
def top_genres_effect (df : MDataFrame) (nG nM : Nat) :
    Except RankError RankedFrame × MDataFrame :=
  if "genre" ∈ df.columns then
    let wrote := (selectedGenres df nG).any (fun g => perGenreInsertWrites df nM g)
    (top_genres_top_movies df nG nM,
      if wrote then ⟨"genre_group" :: df.columns, df.rows⟩ else df)
  else (.error (.schemaError "Input DataFrame must contain a 'genre' column"), df)

/-! ## Series Builder (Pipeline B)

Model of the fetch-button handler:

    df = pd.DataFrame(data)
    df['data'] = pd.to_datetime(df['data'])
    df = df.sort_values('data')

A fetched record carries a date (column `data`) and a price (column
`cena`); `sort_values('data')` is the stable ascending sort by date. -/

structure PriceRec where
  data : Date
  cena : ℚ
deriving DecidableEq, Repr

/-- The Series Builder: sort the fetched records ascending by date. -/
def buildSeries (l : List PriceRec) : List PriceRec :=
  stableSort (fun a b => Date.leB a.data b.data) l

/-! ## Lemmas about the generic helpers -/

theorem length_insertS (le : α → α → Bool) (a : α) (l : List α) :
    (insertS le a l).length = l.length + 1 := by
  induction l with
  | nil => rfl
  | cons b t ih =>
    simp only [insertS]
    split <;> simp [ih]

theorem length_stableSort (le : α → α → Bool) (l : List α) :
    (stableSort le l).length = l.length := by
  induction l with
  | nil => rfl
  | cons a t ih => simp [stableSort, length_insertS, ih]

theorem perm_insertS (le : α → α → Bool) (a : α) (l : List α) :
    (insertS le a l).Perm (a :: l) := by
  induction l with
  | nil => simp [insertS]
  | cons b t ih =>
    simp only [insertS]
    split
    · exact List.Perm.refl _
    · exact (List.Perm.cons b ih).trans (List.Perm.swap a b t)

theorem perm_stableSort (le : α → α → Bool) (l : List α) :
    (stableSort le l).Perm l := by
  induction l with
  | nil => exact List.Perm.refl _
  | cons a t ih =>
    exact (perm_insertS le a (stableSort le t)).trans (List.Perm.cons a ih)

theorem mem_stableSort (le : α → α → Bool) (l : List α) (x : α) :
    x ∈ stableSort le l ↔ x ∈ l :=
  (perm_stableSort le l).mem_iff

theorem pairwise_insertS (le : α → α → Bool)
    (total : ∀ x y, le x y = true ∨ le y x = true)
    (htrans : ∀ x y z, le x y = true → le y z = true → le x z = true)
    (a : α) (l : List α) (h : l.Pairwise (fun x y => le x y = true)) :
    (insertS le a l).Pairwise (fun x y => le x y = true) := by
  induction l with
  | nil => simp [insertS]
  | cons b t ih =>
    rcases h with _ | ⟨hb, ht⟩
    simp only [insertS]
    split
    next hab =>
      refine List.Pairwise.cons ?_ (List.Pairwise.cons hb ht)
      intro y hy
      rcases List.mem_cons.mp hy with rfl | hy'
      · exact hab
      · exact htrans a b y hab (hb y hy')
    next hab =>
      have hba : le b a = true := by
        rcases total a b with h1 | h1
        · exact absurd h1 hab
        · exact h1
      refine List.Pairwise.cons ?_ (ih ht)
      intro y hy
      have hmem := (perm_insertS le a t).mem_iff.mp hy
      rcases List.mem_cons.mp hmem with rfl | hy'
      · exact hba
      · exact hb y hy'

theorem pairwise_stableSort (le : α → α → Bool)
    (total : ∀ x y, le x y = true ∨ le y x = true)
    (htrans : ∀ x y z, le x y = true → le y z = true → le x z = true)
    (l : List α) :
    (stableSort le l).Pairwise (fun x y => le x y = true) := by
  induction l with
  | nil => exact List.Pairwise.nil
  | cons a t ih => exact pairwise_insertS le total htrans a (stableSort le t) ih

theorem filter_insertS_pos (le : α → α → Bool) (p : α → Bool) (a : α)
    (hpa : p a = true) (hle : ∀ b, p b = true → le a b = true) (l : List α) :
    (insertS le a l).filter p = a :: l.filter p := by
  induction l with
  | nil => simp [insertS, hpa]
  | cons b t ih =>
    simp only [insertS]
    split
    next => simp [List.filter, hpa]
    next hab =>
      have hpb : p b = false := by
        rcases hb : p b with _ | _
        · rfl
        · exact absurd (hle b hb) hab
      simp [List.filter, hpb, ih]

theorem filter_insertS_neg (le : α → α → Bool) (p : α → Bool) (a : α)
    (hpa : p a = false) (l : List α) :
    (insertS le a l).filter p = l.filter p := by
  induction l with
  | nil => simp [insertS, hpa]
  | cons b t ih =>
    simp only [insertS]
    split
    · simp [List.filter, hpa]
    · rcases hb : p b with _ | _ <;> simp [List.filter, hb, ih, hpa]

/-- Stability of the sort: the elements satisfying a predicate that only
holds inside a single tie class come out in their original order. -/
theorem filter_stableSort (le : α → α → Bool) (p : α → Bool)
    (hties : ∀ x y, p x = true → p y = true → le x y = true) (l : List α) :
    (stableSort le l).filter p = l.filter p := by
  induction l with
  | nil => rfl
  | cons a t ih =>
    simp only [stableSort]
    rcases hpa : p a with _ | _
    · rw [filter_insertS_neg le p a hpa, ih]
      simp [List.filter, hpa]
    · rw [filter_insertS_pos le p a hpa (fun b hb => hties a b hpa hb), ih]
      simp [List.filter, hpa]

theorem nodup_stableSort (le : α → α → Bool) (l : List α) (h : l.Nodup) :
    (stableSort le l).Nodup :=
  (perm_stableSort le l).nodup_iff.mpr h

/-! ## Lemmas about dates -/

theorem Date.ltB_iff (a b : Date) :
    Date.ltB a b = true ↔
      a.year < b.year ∨
        (a.year = b.year ∧
          (a.month < b.month ∨ (a.month = b.month ∧ a.day < b.day))) := by
  simp [Date.ltB]

theorem Date.leB_iff (a b : Date) :
    Date.leB a b = true ↔
      a.year < b.year ∨
        (a.year = b.year ∧
          (a.month < b.month ∨ (a.month = b.month ∧ a.day ≤ b.day))) := by
  rcases a with ⟨ay, am, ad⟩
  rcases b with ⟨by_, bm, bd⟩
  simp only [Date.leB, Date.ltB, Bool.not_eq_true']
  simp only [Bool.or_eq_false_iff, Bool.and_eq_false_iff, decide_eq_false_iff_not,
    beq_eq_false_iff_ne, ne_eq, Nat.not_lt, decide_eq_true_eq, beq_iff_eq]
  omega

theorem Date.leB_refl (a : Date) : Date.leB a a = true := by
  rw [Date.leB_iff]
  omega

theorem Date.leB_total (a b : Date) :
    Date.leB a b = true ∨ Date.leB b a = true := by
  rw [Date.leB_iff, Date.leB_iff]
  omega

theorem Date.leB_trans (a b c : Date)
    (h1 : Date.leB a b = true) (h2 : Date.leB b c = true) :
    Date.leB a c = true := by
  rw [Date.leB_iff] at h1 h2 ⊢
  omega

theorem Date.not_ltB (a b : Date) :
    Date.ltB a b = false ↔ Date.leB b a = true := by
  rcases h : Date.ltB a b with _ | _
  · simp only [Date.leB, h]
    simp
  · simp only [Date.leB, h]
    simp

end S2P

/-- C8: the Series Builder's output is sorted ascending by date, and among
records with duplicate dates the output preserves the records' input order
(stable sort). -/
theorem c8_series_sorted_stable (l : List S2P.PriceRec) :
    (S2P.buildSeries l).Pairwise
        (fun a b => S2P.Date.leB a.data b.data = true)
    ∧ ∀ d : S2P.Date,
        (S2P.buildSeries l).filter (fun r => r.data == d)
          = l.filter (fun r => r.data == d) := by
  constructor
  · exact S2P.pairwise_stableSort _
      (fun x y => S2P.Date.leB_total x.data y.data)
      (fun x y z => S2P.Date.leB_trans x.data y.data z.data) l
  · intro d
    refine S2P.filter_stableSort _ _ ?_ l
    intro x y hx hy
    have hx' : x.data = d := by simpa using hx
    have hy' : y.data = d := by simpa using hy
    rw [hx', hy']
    exact S2P.Date.leB_refl d

/-- C9: `top_genres_top_movies` leaves its input unchanged: every in-place
`insert` happens on a frame that went through `.copy()`, so the `movies`
argument after the call equals the argument before it. -/
theorem c9_input_unchanged (df : S2P.MDataFrame) (nG nM : Nat) :
    (S2P.top_genres_effect df nG nM).2 = df := by
  unfold S2P.top_genres_effect
  split
  · have hw : ∀ g, S2P.perGenreInsertWrites df nM g = false := fun g => rfl
    simp [hw]
  · rfl

/-- C6: the Genre Ranker fails with the schema error exactly when the
`genre` column is missing; with the column present and no rows it returns
the empty frame rather than an error. -/
theorem c6_schema_error_iff (df : S2P.MDataFrame) (nG nM : Nat) :
    (S2P.top_genres_top_movies df nG nM
        = .error (.schemaError "Input DataFrame must contain a 'genre' column")
      ↔ "genre" ∉ df.columns)
    ∧ ("genre" ∈ df.columns → df.rows = [] →
        S2P.top_genres_top_movies df nG nM = .ok ⟨[], []⟩) := by
  constructor
  · unfold S2P.top_genres_top_movies
    split
    next h =>
      constructor
      · intro hcontra
        rcases hgs : (S2P.selectedGenres df nG).isEmpty with _ | _ <;>
          simp [hgs] at hcontra
      · intro hmem
        exact absurd h hmem
    next h =>
      simp [h]
  · intro hmem hrows
    unfold S2P.top_genres_top_movies
    rw [if_pos hmem]
    have hsel : S2P.selectedGenres df nG = [] := by
      simp [S2P.selectedGenres, S2P.uniqueInOrder, S2P.genreList, hrows,
        S2P.stableSort]
    simp [hsel]

namespace S2P

theorem pvd_date_eval (d lo hi : Date) (lbl : String) :
    parse_validate_date (.asDate d) lbl (some lo) (some hi) =
      if Date.ltB d lo then .error (.dateOutOfRange (minMsg lbl lo))
      else if Date.ltB hi d then .error (.dateOutOfRange (maxMsg lbl hi))
      else .ok d := rfl

theorem validateRange_eq (s e today : Date) :
    validateRange s e today =
      if Date.ltB s minApiDate then
        .error (.boundsError (.dateOutOfRange (minMsg "Data początkowa" minApiDate)))
      else if Date.ltB today s then
        .error (.boundsError (.dateOutOfRange (maxMsg "Data początkowa" today)))
      else if Date.ltB e minApiDate then
        .error (.boundsError (.dateOutOfRange (minMsg "Data końcowa" minApiDate)))
      else if Date.ltB today e then
        .error (.boundsError (.dateOutOfRange (maxMsg "Data końcowa" today)))
      else if Date.ltB e s then .error .startAfterEnd
      else if 93 < daysBetween s e then .error (.spanTooLarge (daysBetween s e))
      else .ok () := by
  unfold validateRange
  rw [pvd_date_eval, pvd_date_eval]
  rcases h1 : Date.ltB s minApiDate with _ | _ <;>
    rcases h2 : Date.ltB today s with _ | _ <;>
      rcases h3 : Date.ltB e minApiDate with _ | _ <;>
        rcases h4 : Date.ltB today e with _ | _ <;>
          simp [h1, h2, h3, h4]

theorem validateRange_ok_iff (s e today : Date) :
    validateRange s e today = .ok () ↔
      (Date.ltB s minApiDate = false ∧ Date.ltB today s = false ∧
       Date.ltB e minApiDate = false ∧ Date.ltB today e = false ∧
       Date.ltB e s = false ∧ ¬ (93 < daysBetween s e)) := by
  rw [validateRange_eq]
  split_ifs with h1 h2 h3 h4 h5 h6 <;>
    simp_all

end S2P

/-- C3: the dashboard's range validation accepts (start, end) and proceeds
to fetching iff start ≤ end, the span is at most 93 days, and both dates
lie within [2013-01-02, today]; each kind of violation is rejected with the
matching error kind, and the 151-day example range (2023-01-01, 2023-06-01)
is rejected for exceeding the 93-day limit. -/
theorem c3_range_checks :
    (∀ s e today : S2P.Date,
      (S2P.validateRange s e today = .ok () ↔
        (S2P.Date.leB S2P.minApiDate s = true ∧ S2P.Date.leB s today = true ∧
         S2P.Date.leB S2P.minApiDate e = true ∧ S2P.Date.leB e today = true ∧
         S2P.Date.leB s e = true ∧ S2P.daysBetween s e ≤ 93))
      ∧ (S2P.Date.leB S2P.minApiDate s = false ∨ S2P.Date.leB s today = false ∨
         S2P.Date.leB S2P.minApiDate e = false ∨ S2P.Date.leB e today = false →
          ∃ msg, S2P.validateRange s e today
            = .error (.boundsError (.dateOutOfRange msg)))
      ∧ (S2P.Date.leB S2P.minApiDate s = true → S2P.Date.leB s today = true →
         S2P.Date.leB S2P.minApiDate e = true → S2P.Date.leB e today = true →
         S2P.Date.leB s e = false →
          S2P.validateRange s e today = .error .startAfterEnd)
      ∧ (S2P.Date.leB S2P.minApiDate s = true → S2P.Date.leB s today = true →
         S2P.Date.leB S2P.minApiDate e = true → S2P.Date.leB e today = true →
         S2P.Date.leB s e = true → 93 < S2P.daysBetween s e →
          S2P.validateRange s e today
            = .error (.spanTooLarge (S2P.daysBetween s e))))
    ∧ S2P.validateRange ⟨2023, 1, 1⟩ ⟨2023, 6, 1⟩ ⟨2026, 10, 12⟩
        = .error (.spanTooLarge 151) := by
  constructor
  · intro s e today
    have hconv : ∀ a b : S2P.Date,
        S2P.Date.ltB a b = false ↔ S2P.Date.leB b a = true :=
      fun a b => S2P.Date.not_ltB a b
    have hconv' : ∀ a b : S2P.Date,
        S2P.Date.ltB a b = true ↔ S2P.Date.leB b a = false := by
      intro a b
      rcases h : S2P.Date.ltB a b with _ | _
      · simp only [(hconv a b).mp h]
        simp
      · constructor
        · intro _
          rcases hl : S2P.Date.leB b a with _ | _
          · rfl
          · exact absurd h (by simpa [hl] using (hconv a b).mpr hl)
        · intro _
          rfl
    refine ⟨?_, ?_, ?_, ?_⟩
    · rw [S2P.validateRange_ok_iff]
      rw [hconv, hconv, hconv, hconv, hconv]
      simp only [not_lt]
    · intro h
      rw [S2P.validateRange_eq]
      rcases h1 : S2P.Date.ltB s S2P.minApiDate with _ | _
      · rcases h2 : S2P.Date.ltB today s with _ | _
        · rcases h3 : S2P.Date.ltB e S2P.minApiDate with _ | _
          · rcases h4 : S2P.Date.ltB today e with _ | _
            · exfalso
              rcases h with h | h | h | h
              · exact absurd ((hconv s S2P.minApiDate).mp h1) (by simp [h])
              · exact absurd ((hconv today s).mp h2) (by simp [h])
              · exact absurd ((hconv e S2P.minApiDate).mp h3) (by simp [h])
              · exact absurd ((hconv today e).mp h4) (by simp [h])
            · exact ⟨S2P.maxMsg "Data końcowa" today, by simp [h1, h2, h3, h4]⟩
          · exact ⟨S2P.minMsg "Data końcowa" S2P.minApiDate, by simp [h1, h2, h3]⟩
        · exact ⟨S2P.maxMsg "Data początkowa" today, by simp [h1, h2]⟩
      · exact ⟨S2P.minMsg "Data początkowa" S2P.minApiDate, by simp [h1]⟩
    · intro hs1 hs2 hs3 hs4 hse
      rw [S2P.validateRange_eq]
      have h1 := (hconv s S2P.minApiDate).mpr hs1
      have h2 := (hconv today s).mpr hs2
      have h3 := (hconv e S2P.minApiDate).mpr hs3
      have h4 := (hconv today e).mpr hs4
      have h5 := (hconv' e s).mpr hse
      simp [h1, h2, h3, h4, h5]
    · intro hs1 hs2 hs3 hs4 hse hspan
      rw [S2P.validateRange_eq]
      have h1 := (hconv s S2P.minApiDate).mpr hs1
      have h2 := (hconv today s).mpr hs2
      have h3 := (hconv e S2P.minApiDate).mpr hs3
      have h4 := (hconv today e).mpr hs4
      have h5 : S2P.Date.ltB e s = false := by
        rcases hec : S2P.Date.ltB e s with _ | _
        · rfl
        · exact absurd hse (by simp [(hconv' e s).mp hec])
      simp [h1, h2, h3, h4, h5, hspan]
  · rfl

/-- Witness for C3 at concrete inputs: a valid 9-day range in May 2013 is
accepted, and a range with the end before the start is rejected with the
order error. -/
theorem c3_range_checks_witness :
    S2P.validateRange ⟨2013, 5, 1⟩ ⟨2013, 5, 10⟩ ⟨2020, 1, 1⟩ = .ok ()
    ∧ S2P.validateRange ⟨2013, 5, 10⟩ ⟨2013, 5, 1⟩ ⟨2020, 1, 1⟩
        = .error .startAfterEnd := by
  constructor
  · exact ((c3_range_checks.1 ⟨2013, 5, 1⟩ ⟨2013, 5, 10⟩ ⟨2020, 1, 1⟩).1).mpr
      (by refine ⟨by decide, by decide, by decide, by decide, by decide, by decide⟩)
  · exact (c3_range_checks.1 ⟨2013, 5, 10⟩ ⟨2013, 5, 1⟩ ⟨2020, 1, 1⟩).2.2.1
      (by decide) (by decide) (by decide) (by decide) (by decide)


namespace S2P

theorem containsSub_nil [DecidableEq α] (l : List α) :
    containsSub ([] : List α) l = true := by
  cases l <;> simp [containsSub, startsWithL]

theorem startsWithL_append_self [DecidableEq α] (A B : List α) :
    startsWithL A (A ++ B) = true := by
  induction A with
  | nil => rfl
  | cons a as ih => simp [startsWithL, ih]

theorem containsSub_of_startsWithL [DecidableEq α] (pat l : List α)
    (h : startsWithL pat l = true) : containsSub pat l = true := by
  cases l with
  | nil =>
    cases pat with
    | nil => rfl
    | cons p ps => simp [startsWithL] at h
  | cons c cs =>
    show (startsWithL pat (c :: cs) || containsSub pat cs) = true
    rw [h, Bool.true_or]

theorem containsSub_append_left [DecidableEq α] (A B : List α) :
    containsSub A (A ++ B) = true :=
  containsSub_of_startsWithL A (A ++ B) (startsWithL_append_self A B)

theorem startsWithL_refl [DecidableEq α] (A : List α) :
    startsWithL A A = true := by
  have h := startsWithL_append_self A ([] : List α)
  rwa [List.append_nil] at h

theorem containsSub_append_right [DecidableEq α] (P X : List α) :
    containsSub P (X ++ P) = true := by
  induction X with
  | nil =>
    exact containsSub_of_startsWithL P P (startsWithL_refl P)
  | cons x xs ih =>
    rw [List.cons_append]
    show (startsWithL P (x :: (xs ++ P)) || containsSub P (xs ++ P)) = true
    rw [ih, Bool.or_true]

theorem checkMax_some (p : Date) (lbl : String) (mx : Date) :
    checkMax p lbl (some mx) =
      if Date.ltB mx p = true then .error (.dateOutOfRange (maxMsg lbl mx))
      else .ok p := rfl

theorem checkMax_none (p : Date) (lbl : String) :
    checkMax p lbl none = .ok p := rfl

theorem pvd_min_eval (value : DateValue) (lbl : String) (m : Date)
    (maxD : Option Date) (p : Date) (hp : pvdParse value = some p) :
    parse_validate_date value lbl (some m) maxD =
      if Date.ltB p m = true then .error (.dateOutOfRange (minMsg lbl m))
      else checkMax p lbl maxD := by
  unfold parse_validate_date
  rw [hp]

theorem pvd_nomin_eval (value : DateValue) (lbl : String)
    (maxD : Option Date) (p : Date) (hp : pvdParse value = some p) :
    parse_validate_date value lbl none maxD = checkMax p lbl maxD := by
  unfold parse_validate_date
  rw [hp]

theorem containsSub_label_minMsg (lbl : String) (m : Date) :
    containsSub lbl.data (minMsg lbl m).data = true := by
  unfold minMsg
  simp only [String.data_append, List.append_assoc]
  exact containsSub_append_left _ _

theorem containsSub_bound_minMsg (lbl : String) (m : Date) :
    containsSub (isoStr m).data (minMsg lbl m).data = true := by
  unfold minMsg
  simp only [String.data_append]
  exact containsSub_append_right _ _

theorem containsSub_label_maxMsg (lbl : String) (m : Date) :
    containsSub lbl.data (maxMsg lbl m).data = true := by
  unfold maxMsg
  simp only [String.data_append, List.append_assoc]
  exact containsSub_append_left _ _

theorem containsSub_bound_maxMsg (lbl : String) (m : Date) :
    containsSub (isoStr m).data (maxMsg lbl m).data = true := by
  unfold maxMsg
  simp only [String.data_append]
  exact containsSub_append_right _ _

end S2P

/-- C7 counterexample: for the parsed date 2012-05-07 below the configured
minimum 2013-01-02, the validator fails with the `DateOutOfRange` message,
but that message does not name the parsed date (its ISO form does not occur
in the message), contradicting the claim that the error names the label,
the offending bound, and the parsed date. -/
theorem c7_counterexample :
    S2P.parse_validate_date (.asDate ⟨2012, 5, 7⟩) "Data początkowa"
        (some S2P.minApiDate) none
      = .error (.dateOutOfRange (S2P.minMsg "Data początkowa" S2P.minApiDate))
    ∧ S2P.containsSub (S2P.isoStr ⟨2012, 5, 7⟩).data
        (S2P.minMsg "Data początkowa" S2P.minApiDate).data = false := by
  constructor
  · rfl
  · decide

/-- C7 amended: if a minimum date is configured and the parsed date
precedes it, the validator fails with `DateOutOfRange` naming the label
and the offending bound (the parsed date is not part of the message);
likewise for a configured maximum; a date the validator returns satisfies
both configured bounds. -/
theorem c7_amended_bounds (value : S2P.DateValue) (label : String)
    (minD maxD : Option S2P.Date) (p : S2P.Date)
    (hp : S2P.pvdParse value = some p) :
    (∀ m, minD = some m → S2P.Date.ltB p m = true →
      S2P.parse_validate_date value label minD maxD
        = .error (.dateOutOfRange (S2P.minMsg label m))
      ∧ S2P.containsSub label.data (S2P.minMsg label m).data = true
      ∧ S2P.containsSub (S2P.isoStr m).data (S2P.minMsg label m).data = true)
    ∧ (∀ mx, maxD = some mx →
        (∀ m, minD = some m → S2P.Date.ltB p m = false) →
        S2P.Date.ltB mx p = true →
        S2P.parse_validate_date value label minD maxD
          = .error (.dateOutOfRange (S2P.maxMsg label mx))
        ∧ S2P.containsSub label.data (S2P.maxMsg label mx).data = true
        ∧ S2P.containsSub (S2P.isoStr mx).data (S2P.maxMsg label mx).data = true)
    ∧ (∀ d, S2P.parse_validate_date value label minD maxD = .ok d →
        d = p
        ∧ (∀ m, minD = some m → S2P.Date.leB m d = true)
        ∧ (∀ mx, maxD = some mx → S2P.Date.leB d mx = true)) := by
  refine ⟨?_, ?_, ?_⟩
  · intro m hm hlt
    subst hm
    rw [S2P.pvd_min_eval value label m maxD p hp, hlt]
    exact ⟨by simp, S2P.containsSub_label_minMsg label m,
      S2P.containsSub_bound_minMsg label m⟩
  · intro mx hmx hmins hlt
    subst hmx
    have hcm : S2P.checkMax p label (some mx)
        = .error (.dateOutOfRange (S2P.maxMsg label mx)) := by
      rw [S2P.checkMax_some, hlt]
      simp
    rcases minD with _ | m
    · rw [S2P.pvd_nomin_eval value label (some mx) p hp, hcm]
      exact ⟨rfl, S2P.containsSub_label_maxMsg label mx,
        S2P.containsSub_bound_maxMsg label mx⟩
    · rw [S2P.pvd_min_eval value label m (some mx) p hp, hmins m rfl, hcm]
      exact ⟨by simp, S2P.containsSub_label_maxMsg label mx,
        S2P.containsSub_bound_maxMsg label mx⟩
  · intro d hok
    rcases minD with _ | m
    · rw [S2P.pvd_nomin_eval value label maxD p hp] at hok
      rcases maxD with _ | mx
      · rw [S2P.checkMax_none] at hok
        cases hok
        exact ⟨rfl, by simp, by simp⟩
      · rw [S2P.checkMax_some] at hok
        rcases hmt : S2P.Date.ltB mx p with _ | _
        · rw [hmt] at hok
          simp only [Bool.false_eq_true, if_false, Except.ok.injEq] at hok
          subst hok
          refine ⟨rfl, by simp, ?_⟩
          intro mx' hmx'
          cases hmx'
          exact (S2P.Date.not_ltB _ _).mp hmt
        · rw [hmt] at hok
          simp at hok
    · rw [S2P.pvd_min_eval value label m maxD p hp] at hok
      rcases hlt : S2P.Date.ltB p m with _ | _
      · rw [hlt] at hok
        simp only [Bool.false_eq_true, if_false] at hok
        rcases maxD with _ | mx
        · rw [S2P.checkMax_none] at hok
          cases hok
          refine ⟨rfl, ?_, by simp⟩
          intro m' hm'
          cases hm'
          exact (S2P.Date.not_ltB _ _).mp hlt
        · rw [S2P.checkMax_some] at hok
          rcases hmt : S2P.Date.ltB mx p with _ | _
          · rw [hmt] at hok
            simp only [Bool.false_eq_true, if_false, Except.ok.injEq] at hok
            subst hok
            refine ⟨rfl, ?_, ?_⟩
            · intro m' hm'
              cases hm'
              exact (S2P.Date.not_ltB _ _).mp hlt
            · intro mx' hmx'
              cases hmx'
              exact (S2P.Date.not_ltB _ _).mp hmt
          · rw [hmt] at hok
            simp at hok
      · rw [hlt] at hok
        simp at hok

/-- Witness for C7 (amended) at concrete inputs: the 2012-05-07 input below
the 2013-01-02 minimum yields the out-of-range error whose message names
the label and the bound. -/
theorem c7_amended_bounds_witness :
    S2P.parse_validate_date (.asDate ⟨2012, 5, 7⟩) "Data"
        (some S2P.minApiDate) none
      = .error (.dateOutOfRange (S2P.minMsg "Data" S2P.minApiDate))
      ∧ S2P.containsSub "Data".data (S2P.minMsg "Data" S2P.minApiDate).data = true
      ∧ S2P.containsSub (S2P.isoStr S2P.minApiDate).data
          (S2P.minMsg "Data" S2P.minApiDate).data = true :=
  (c7_amended_bounds (.asDate ⟨2012, 5, 7⟩) "Data"
      (some S2P.minApiDate) none ⟨2012, 5, 7⟩ rfl).1
    S2P.minApiDate rfl (by decide)

/-- Witness for C6 at concrete inputs: a frame with a `genre` column and no
rows yields the empty result, and a frame without the column yields the
schema error. -/
theorem c6_schema_error_iff_witness :
    S2P.top_genres_top_movies ⟨["genre"], []⟩ 5 5 = .ok ⟨[], []⟩
    ∧ S2P.top_genres_top_movies ⟨["title"], []⟩ 5 5
        = .error (.schemaError "Input DataFrame must contain a 'genre' column") := by
  constructor
  · exact (c6_schema_error_iff ⟨["genre"], []⟩ 5 5).2 (by decide) rfl
  · exact (c6_schema_error_iff ⟨["title"], []⟩ 5 5).1.mpr (by decide)

namespace S2P

theorem pairwise_sortDescKey {K : Type} [LinearOrder K] (f : α → K) (l : List α) :
    (stableSort (fun a b => decide (f b ≤ f a)) l).Pairwise
      (fun a b => f b ≤ f a) := by
  have h := pairwise_stableSort (fun a b => decide (f b ≤ f a))
    (fun x y => by
      rcases le_total (f y) (f x) with h | h
      · exact Or.inl (decide_eq_true h)
      · exact Or.inr (decide_eq_true h))
    (fun x y z h1 h2 =>
      decide_eq_true (le_trans (of_decide_eq_true h2) (of_decide_eq_true h1)))
    l
  exact h.imp (fun hab => of_decide_eq_true hab)

theorem filter_sortDescKey {K : Type} [LinearOrder K] [DecidableEq K]
    (f : α → K) (q : K) (l : List α) :
    (stableSort (fun a b => decide (f b ≤ f a)) l).filter
        (fun r => decide (f r = q))
      = l.filter (fun r => decide (f r = q)) := by
  refine filter_stableSort _ _ ?_ l
  intro x y hx hy
  have hx' : f x = q := of_decide_eq_true hx
  have hy' : f y = q := of_decide_eq_true hy
  rw [hx', hy']
  exact decide_eq_true le_rfl

theorem take_isPrefix (n : Nat) (l : List α) : l.take n <+: l :=
  ⟨l.drop n, List.take_append_drop n l⟩

theorem pairwise_take_drop {R : α → α → Prop} (l : List α) (n : Nat)
    (h : l.Pairwise R) : ∀ x ∈ l.take n, ∀ y ∈ l.drop n, R x y := by
  rw [← List.take_append_drop n l] at h
  exact fun x hx y hy => (List.pairwise_append.mp h).2.2 x hx y hy

end S2P

/-- C2: for a selected genre, the Genre Ranker's group is ordered by
`star_rating` descending with a missing rating treated as `-1` (so with
non-negative ratings the unrated records come after all rated ones), takes
the first `top_n_movies` records after that ordering (it has
`min top_n_movies N` records, every kept record's effective rating is at
least every dropped record's, and within each rating class the kept
records are the first of that class), and preserves the original relative
input order among records with exactly equal effective ratings (stable
sort). -/
theorem c2_group_sorted_stable (df : S2P.MDataFrame) (nG nM : Nat) (g : String)
    (hsr : "star_rating" ∈ df.columns) (_hg : g ∈ S2P.selectedGenres df nG) :
    (S2P.genreGroupRows df nM g).Pairwise
        (fun a b => S2P.effKey b ≤ S2P.effKey a)
    ∧ (S2P.genreGroupRows df nM g).length
        = min nM (df.rows.filter (fun r => r.genre == g)).length
    ∧ (∀ q : ℚ,
        (S2P.genreGroupRows df nM g).filter (fun r => decide (S2P.effKey r = q))
          <+: (df.rows.filter (fun r => r.genre == g)).filter
                (fun r => decide (S2P.effKey r = q)))
    ∧ ((∀ r ∈ df.rows.filter (fun r => r.genre == g),
          ∀ q : ℚ, r.star_rating = some q → 0 ≤ q) →
        (S2P.genreGroupRows df nM g).Pairwise
          (fun a b => a.star_rating = none → b.star_rating = none))
    ∧ (∀ a ∈ S2P.genreGroupRows df nM g,
        ∀ b ∈ df.rows.filter (fun r => r.genre == g),
          b ∉ S2P.genreGroupRows df nM g → S2P.effKey b ≤ S2P.effKey a) := by
  have hgg : S2P.genreGroupRows df nM g
      = (S2P.stableSort (fun a b => decide (S2P.effKey b ≤ S2P.effKey a))
          (df.rows.filter (fun r => r.genre == g))).take nM := by
    unfold S2P.genreGroupRows
    rw [if_pos hsr]
  have hpair : (S2P.genreGroupRows df nM g).Pairwise
      (fun a b => S2P.effKey b ≤ S2P.effKey a) := by
    rw [hgg]
    exact List.Pairwise.sublist (List.take_sublist nM _)
      (S2P.pairwise_sortDescKey S2P.effKey _)
  refine ⟨hpair, ?_, ?_, ?_, ?_⟩
  · rw [hgg, List.length_take, S2P.length_stableSort]
  · intro q
    rw [hgg]
    have h1 := (S2P.take_isPrefix nM
      (S2P.stableSort (fun a b => decide (S2P.effKey b ≤ S2P.effKey a))
        (df.rows.filter (fun r => r.genre == g)))).filter
      (fun r => decide (S2P.effKey r = q))
    rwa [S2P.filter_sortDescKey S2P.effKey q] at h1
  · intro hpos
    refine List.Pairwise.imp_of_mem ?_ hpair
    intro a b ha hb hle hnone
    have hbmem : b ∈ df.rows.filter (fun r => r.genre == g) := by
      rw [hgg] at hb
      have hb1 := (List.take_sublist nM _).mem hb
      exact (S2P.mem_stableSort _ _ b).mp hb1
    rcases hbr : b.star_rating with _ | q
    · rfl
    · exfalso
      have hq : 0 ≤ q := hpos b hbmem q hbr
      have hka : S2P.effKey a = -1 := by
        unfold S2P.effKey
        rw [hnone]
        rfl
      have hkb : S2P.effKey b = q := by
        unfold S2P.effKey
        rw [hbr]
        rfl
      rw [hka, hkb] at hle
      linarith
  · intro a ha b hb hbnot
    rw [hgg] at ha hbnot
    have hbs : b ∈ S2P.stableSort
        (fun a b => decide (S2P.effKey b ≤ S2P.effKey a))
        (df.rows.filter (fun r => r.genre == g)) :=
      (S2P.mem_stableSort _ _ b).mpr hb
    rw [← List.take_append_drop nM
      (S2P.stableSort (fun a b => decide (S2P.effKey b ≤ S2P.effKey a))
        (df.rows.filter (fun r => r.genre == g)))] at hbs
    rcases List.mem_append.mp hbs with hin | hin
    · exact absurd hin hbnot
    · exact S2P.pairwise_take_drop _ nM
        (S2P.pairwise_sortDescKey S2P.effKey _) a ha b hin

/-- Witness for C2 at a concrete frame (two rated records tied at 8 and one
unrated record in one genre, `top_n_movies = 2`): the group keeps the two
tied rated records in input order and the dropped unrated record's
effective rating is at most a kept one's. -/
theorem c2_group_sorted_stable_witness :
    (S2P.genreGroupRows
        ⟨["title", "star_rating", "genre"],
         [⟨"A", some 8, none, "Comedy"⟩, ⟨"B", none, none, "Comedy"⟩,
          ⟨"C", some 8, none, "Comedy"⟩]⟩ 2 "Comedy").Pairwise
        (fun a b => S2P.effKey b ≤ S2P.effKey a)
    ∧ (S2P.genreGroupRows
        ⟨["title", "star_rating", "genre"],
         [⟨"A", some 8, none, "Comedy"⟩, ⟨"B", none, none, "Comedy"⟩,
          ⟨"C", some 8, none, "Comedy"⟩]⟩ 2 "Comedy").length = min 2 3
    ∧ S2P.effKey ⟨"B", none, none, "Comedy"⟩
        ≤ S2P.effKey ⟨"A", some 8, none, "Comedy"⟩ := by
  have h := c2_group_sorted_stable
    ⟨["title", "star_rating", "genre"],
     [⟨"A", some 8, none, "Comedy"⟩, ⟨"B", none, none, "Comedy"⟩,
      ⟨"C", some 8, none, "Comedy"⟩]⟩ 1 2 "Comedy" (by decide) (by decide)
  exact ⟨h.1, h.2.1,
    h.2.2.2.2 ⟨"A", some 8, none, "Comedy"⟩ (by decide)
      ⟨"B", none, none, "Comedy"⟩ (by decide) (by decide)⟩

/-- C5: the Genre Ranker selects the `top_n_genres` genres with the highest
record counts (every selected genre's count is at least every unselected
genre's count), ties on count keep first-encountered order (the selected
genres of a given count are an initial segment of the distinct genres of
that count in first-appearance order), and in the concrete example where
Comedy and Drama each count 1, Comedy is grouped before Drama. -/
theorem c5_top_counts_stable :
    (∀ (df : S2P.MDataFrame) (nG : Nat),
      (∀ g ∈ S2P.selectedGenres df nG,
        ∀ g' ∈ S2P.uniqueInOrder (S2P.genreList df),
          g' ∉ S2P.selectedGenres df nG →
            S2P.countGenre df.rows g' ≤ S2P.countGenre df.rows g)
      ∧ ∀ c : Nat,
          (S2P.selectedGenres df nG).filter
              (fun g => decide (S2P.countGenre df.rows g = c))
            <+: (S2P.uniqueInOrder (S2P.genreList df)).filter
                  (fun g => decide (S2P.countGenre df.rows g = c)))
    ∧ S2P.top_genres_top_movies
        ⟨["title", "star_rating", "genre"],
         [⟨"A", some 8, none, "Comedy"⟩, ⟨"C", some 9, none, "Drama"⟩]⟩ 2 2
      = .ok ⟨["genre_group", "title", "star_rating", "genre"],
             [("Comedy", ⟨"A", some 8, none, "Comedy"⟩),
              ("Drama", ⟨"C", some 9, none, "Drama"⟩)]⟩ := by
  constructor
  · intro df nG
    have hsorted := S2P.pairwise_sortDescKey
      (fun g => S2P.countGenre df.rows g)
      (S2P.uniqueInOrder (S2P.genreList df))
    constructor
    · intro g hgsel g' hg'uniq hg'not
      have hg'sorted : g' ∈ S2P.stableSort
          (fun g1 g2 =>
            decide (S2P.countGenre df.rows g2 ≤ S2P.countGenre df.rows g1))
          (S2P.uniqueInOrder (S2P.genreList df)) :=
        (S2P.mem_stableSort _ _ g').mpr hg'uniq
      rw [← List.take_append_drop nG
        (S2P.stableSort
          (fun g1 g2 =>
            decide (S2P.countGenre df.rows g2 ≤ S2P.countGenre df.rows g1))
          (S2P.uniqueInOrder (S2P.genreList df)))] at hg'sorted
      rcases List.mem_append.mp hg'sorted with hin | hin
      · exact absurd hin hg'not
      · exact S2P.pairwise_take_drop _ nG hsorted g hgsel g' hin
    · intro c
      have h1 := (S2P.take_isPrefix nG
        (S2P.stableSort
          (fun g1 g2 =>
            decide (S2P.countGenre df.rows g2 ≤ S2P.countGenre df.rows g1))
          (S2P.uniqueInOrder (S2P.genreList df)))).filter
        (fun g => decide (S2P.countGenre df.rows g = c))
      rwa [S2P.filter_sortDescKey (fun g => S2P.countGenre df.rows g) c] at h1
  · rfl

/-- Witness for C5 at a concrete frame: with Comedy counting 2 and Drama 1
and `top_n_genres = 1`, the unselected Drama's count is at most the
selected Comedy's count. -/
theorem c5_top_counts_stable_witness :
    S2P.countGenre
        [⟨"X", some 8, none, "Comedy"⟩, ⟨"Y", some 9, none, "Drama"⟩,
         ⟨"Z", none, none, "Comedy"⟩] "Drama"
      ≤ S2P.countGenre
        [⟨"X", some 8, none, "Comedy"⟩, ⟨"Y", some 9, none, "Drama"⟩,
         ⟨"Z", none, none, "Comedy"⟩] "Comedy" :=
  ((c5_top_counts_stable.1
      ⟨["title", "star_rating", "genre"],
       [⟨"X", some 8, none, "Comedy"⟩, ⟨"Y", some 9, none, "Drama"⟩,
        ⟨"Z", none, none, "Comedy"⟩]⟩ 1).1
    "Comedy" (by decide) "Drama" (by decide) (by decide))

namespace S2P

theorem mem_uniqueAux [DecidableEq α] (seen l : List α) (x : α) :
    x ∈ uniqueAux seen l ↔ (x ∈ l ∧ x ∉ seen) := by
  induction l generalizing seen with
  | nil => simp [uniqueAux]
  | cons a t ih =>
    simp only [uniqueAux]
    split
    next ha =>
      rw [ih]
      constructor
      · exact fun ⟨h1, h2⟩ => ⟨List.mem_cons_of_mem a h1, h2⟩
      · rintro ⟨h1, h2⟩
        rcases List.mem_cons.mp h1 with rfl | h1'
        · exact absurd ha h2
        · exact ⟨h1', h2⟩
    next ha =>
      constructor
      · intro hx
        rcases List.mem_cons.mp hx with rfl | hx'
        · exact ⟨List.mem_cons_self x t, ha⟩
        · have := (ih (a :: seen)).mp hx'
          exact ⟨List.mem_cons_of_mem a this.1,
            fun hc => this.2 (List.mem_cons_of_mem a hc)⟩
      · rintro ⟨h1, h2⟩
        rcases List.mem_cons.mp h1 with rfl | h1'
        · exact List.mem_cons_self x _
        · by_cases hxa : x = a
          · subst hxa
            exact List.mem_cons_self x _
          · exact List.mem_cons_of_mem a ((ih (a :: seen)).mpr
              ⟨h1', fun hc => by
                rcases List.mem_cons.mp hc with h | h
                · exact hxa h
                · exact h2 h⟩)

theorem nodup_uniqueAux [DecidableEq α] (seen l : List α) :
    (uniqueAux seen l).Nodup := by
  induction l generalizing seen with
  | nil => exact List.nodup_nil
  | cons a t ih =>
    simp only [uniqueAux]
    split
    · exact ih seen
    · refine List.Nodup.cons ?_ (ih (a :: seen))
      intro hc
      exact ((mem_uniqueAux (a :: seen) t a).mp hc).2 (List.mem_cons_self a seen)

theorem mem_uniqueInOrder [DecidableEq α] (l : List α) (x : α) :
    x ∈ uniqueInOrder l ↔ x ∈ l := by
  unfold uniqueInOrder
  rw [mem_uniqueAux]
  simp

theorem nodup_uniqueInOrder [DecidableEq α] (l : List α) :
    (uniqueInOrder l).Nodup :=
  nodup_uniqueAux [] l

theorem uniqueInOrder_eq_nil [DecidableEq α] (l : List α)
    (h : uniqueInOrder l = []) : l = [] := by
  cases l with
  | nil => rfl
  | cons a t =>
    exfalso
    have : a ∈ uniqueInOrder (a :: t) := (mem_uniqueInOrder _ a).mpr
      (List.mem_cons_self a t)
    rw [h] at this
    exact List.not_mem_nil a this

theorem uniqueAux_const_mem [DecidableEq α] (g : α) (w : List α)
    (hall : ∀ x ∈ w, x = g) (seen rest : List α) (hg : g ∈ seen) :
    uniqueAux seen (w ++ rest) = uniqueAux seen rest := by
  induction w with
  | nil => rfl
  | cons x w' ih =>
    have hx : x = g := hall x (List.mem_cons_self x w')
    subst hx
    simp only [List.cons_append, uniqueAux, if_pos hg]
    exact ih (fun y hy => hall y (List.mem_cons_of_mem x hy))

theorem uniqueAux_const_new [DecidableEq α] (g : α) (w : List α)
    (hne : w ≠ []) (hall : ∀ x ∈ w, x = g) (seen rest : List α)
    (hg : g ∉ seen) :
    uniqueAux seen (w ++ rest) = g :: uniqueAux (g :: seen) rest := by
  cases w with
  | nil => exact absurd rfl hne
  | cons x w' =>
    have hx : x = g := hall x (List.mem_cons_self x w')
    subst hx
    simp only [List.cons_append, uniqueAux, if_neg hg]
    exact congrArg (fun t => x :: t)
      (uniqueAux_const_mem x w'
        (fun y hy => hall y (List.mem_cons_of_mem x hy)) _ rest
        (List.mem_cons_self x seen))

theorem uniqueAux_cmap [DecidableEq α] (f : α → List α) (gs : List α)
    (hnd : gs.Nodup)
    (hblocks : ∀ g ∈ gs, f g ≠ [] ∧ ∀ x ∈ f g, x = g) :
    ∀ seen, uniqueAux seen (cmap f gs)
      = gs.filter (fun g => decide (g ∉ seen)) := by
  induction gs with
  | nil => intro seen; rfl
  | cons g gs' ih =>
    intro seen
    rcases hnd with _ | ⟨hgnot, hnd'⟩
    have hb := hblocks g (List.mem_cons_self g gs')
    have hrest := fun g' hg' => hblocks g' (List.mem_cons_of_mem g hg')
    simp only [cmap]
    by_cases hg : g ∈ seen
    · rw [uniqueAux_const_mem g (f g) hb.2 seen _ hg, ih hnd' hrest seen]
      have : (decide (g ∉ seen)) = false := by simp [hg]
      simp [List.filter, this]
    · rw [uniqueAux_const_new g (f g) hb.1 hb.2 seen _ hg,
        ih hnd' hrest (g :: seen)]
      have h1 : (decide (g ∉ seen)) = true := by simp [hg]
      have h2 : gs'.filter (fun x => decide (x ∉ g :: seen))
          = gs'.filter (fun x => decide (x ∉ seen)) := by
        apply List.filter_congr
        intro x hx
        have hxg : x ≠ g := fun hc => (hgnot x hx) hc.symm
        simp [List.mem_cons, hxg]
      rw [h2]
      simp [List.filter, h1]

theorem uniqueInOrder_cmap [DecidableEq α] (f : α → List α) (gs : List α)
    (hnd : gs.Nodup)
    (hblocks : ∀ g ∈ gs, f g ≠ [] ∧ ∀ x ∈ f g, x = g) :
    uniqueInOrder (cmap f gs) = gs := by
  unfold uniqueInOrder
  rw [uniqueAux_cmap f gs hnd hblocks []]
  apply List.filter_eq_self.mpr
  intro a _
  simp

theorem map_cmap (h : β → γ) (f : α → List β) (l : List α) :
    (cmap f l).map h = cmap (fun a => (f a).map h) l := by
  induction l with
  | nil => rfl
  | cons a t ih => simp only [cmap, List.map_append, ih]

theorem filter_cmap (p : β → Bool) (f : α → List β) (l : List α) :
    (cmap f l).filter p = cmap (fun a => (f a).filter p) l := by
  induction l with
  | nil => rfl
  | cons a t ih => simp only [cmap, List.filter_append, ih]

theorem length_genreGroupRows (df : MDataFrame) (nM : Nat) (g : String) :
    (genreGroupRows df nM g).length
      = min nM (df.rows.filter (fun r => r.genre == g)).length := by
  unfold genreGroupRows
  split
  · rw [List.length_take, length_stableSort]
  · rw [List.length_take]

end S2P

namespace S2P

theorem filter_fst_mapGroup (g h : String) (l : List MovieRow) :
    (l.map (fun r => (h, r))).filter (fun e => e.1 == g)
      = if h = g then l.map (fun r => (h, r)) else [] := by
  induction l with
  | nil => simp
  | cons r t ih =>
    simp only [List.map_cons, List.filter]
    by_cases hg : h = g
    · subst hg
      simp only [if_pos rfl] at ih ⊢
      simp [ih]
    · have : ((h, r).1 == g) = false := by
        simp [hg]
      simp only [if_neg hg] at ih ⊢
      simp [this, ih]

theorem filter_fst_cmap_blocks (g : String) (B : String → List MovieRow) :
    ∀ gs : List String, gs.Nodup →
      ((cmap (fun h => (B h).map (fun r => (h, r))) gs).filter
          (fun e => e.1 == g))
        = if g ∈ gs then (B g).map (fun r => (g, r)) else [] := by
  intro gs
  induction gs with
  | nil => simp [cmap]
  | cons h gs' ih =>
    intro hnd
    rcases hnd with _ | ⟨hnot, hnd'⟩
    simp only [cmap, List.filter_append, filter_fst_mapGroup, ih hnd']
    by_cases hg : h = g
    · have hga : g ∉ gs' := fun hc => hnot g hc hg
      simp [hg, hga]
    · have : (g ∈ h :: gs') ↔ (g ∈ gs') := by
        constructor
        · intro hc
          rcases List.mem_cons.mp hc with rfl | hc'
          · exact absurd rfl hg
          · exact hc'
        · exact List.mem_cons_of_mem h
      simp only [if_neg hg, List.nil_append]
      by_cases hmem : g ∈ gs' <;> simp [hmem, this]

end S2P

/-- C4: with a `genre` column and positive parameters, the Genre Ranker
succeeds, the number of distinct `genre_group` values in the output equals
`min top_n_genres (number of distinct genres in the input)`, and every
genre contributes at most `top_n_movies` entries. -/
theorem c4_group_counts (df : S2P.MDataFrame) (nG nM : Nat)
    (hcol : "genre" ∈ df.columns) (hnG : 0 < nG) (hnM : 0 < nM) :
    ∃ rf, S2P.top_genres_top_movies df nG nM = .ok rf
      ∧ (S2P.uniqueInOrder (rf.entries.map Prod.fst)).length
          = min nG (S2P.uniqueInOrder (S2P.genreList df)).length
      ∧ ∀ g : String,
          ((rf.entries.filter (fun e => e.1 == g)).length ≤ nM) := by
  unfold S2P.top_genres_top_movies
  rw [if_pos hcol]
  by_cases hemp : (S2P.selectedGenres df nG).isEmpty
  · have hgs : S2P.selectedGenres df nG = [] := List.isEmpty_iff.mp hemp
    have hsorted : S2P.stableSort
        (fun g1 g2 =>
          decide (S2P.countGenre df.rows g2 ≤ S2P.countGenre df.rows g1))
        (S2P.uniqueInOrder (S2P.genreList df)) = [] := by
      rcases List.take_eq_nil_iff.mp hgs with h | h
      · omega
      · exact h
    have huniq : S2P.uniqueInOrder (S2P.genreList df) = [] := by
      have hlen := S2P.length_stableSort
        (fun g1 g2 =>
          decide (S2P.countGenre df.rows g2 ≤ S2P.countGenre df.rows g1))
        (S2P.uniqueInOrder (S2P.genreList df))
      rw [hsorted] at hlen
      exact List.length_eq_zero.mp hlen.symm
    refine ⟨⟨[], []⟩, by simp [hemp], ?_, ?_⟩
    · rw [huniq]
      simp [S2P.uniqueInOrder, S2P.uniqueAux]
    · intro g
      simp
  · have hgs : S2P.selectedGenres df nG ≠ [] := by
      intro hc
      rw [hc] at hemp
      exact hemp rfl
    have hnd : (S2P.selectedGenres df nG).Nodup :=
      ((S2P.nodup_stableSort _ _
          (S2P.nodup_uniqueInOrder (S2P.genreList df))).sublist
        (List.take_sublist nG _))
    have hmemrows : ∀ g ∈ S2P.selectedGenres df nG,
        (df.rows.filter (fun r => r.genre == g)) ≠ [] := by
      intro g hgmem
      have h1 : g ∈ S2P.uniqueInOrder (S2P.genreList df) :=
        (S2P.mem_stableSort _ _ g).mp
          ((List.take_sublist nG _).subset hgmem)
      have h2 : g ∈ S2P.genreList df :=
        (S2P.mem_uniqueInOrder _ g).mp h1
      rcases List.mem_map.mp h2 with ⟨r, hr, hrg⟩
      have : r ∈ df.rows.filter (fun r => r.genre == g) :=
        List.mem_filter.mpr ⟨hr, by simp [hrg]⟩
      exact List.ne_nil_of_mem this
    have hgrpne : ∀ g ∈ S2P.selectedGenres df nG,
        S2P.genreGroupRows df nM g ≠ [] := by
      intro g hgmem
      have hlen := S2P.length_genreGroupRows df nM g
      have hpos : 0 < (df.rows.filter (fun r => r.genre == g)).length :=
        List.length_pos.mpr (hmemrows g hgmem)
      have : 0 < (S2P.genreGroupRows df nM g).length := by
        rw [hlen]
        omega
      exact List.ne_nil_of_length_pos this
    refine ⟨⟨"genre_group" :: S2P.resultColumns df,
        S2P.cmap (fun g => (S2P.genreGroupRows df nM g).map (fun r => (g, r)))
          (S2P.selectedGenres df nG)⟩, by rw [if_neg hemp], ?_, ?_⟩
    · have hmap : (S2P.cmap
          (fun g => (S2P.genreGroupRows df nM g).map (fun r => (g, r)))
          (S2P.selectedGenres df nG)).map Prod.fst
        = S2P.cmap
            (fun g => (S2P.genreGroupRows df nM g).map (fun _ => g))
            (S2P.selectedGenres df nG) := by
        rw [S2P.map_cmap]
        congr 1
        funext g
        rw [List.map_map]
        rfl
      rw [hmap, S2P.uniqueInOrder_cmap _ _ hnd ?_]
      · unfold S2P.selectedGenres
        rw [List.length_take, S2P.length_stableSort]
      · intro g hgmem
        constructor
        · intro hc
          exact hgrpne g hgmem (List.map_eq_nil_iff.mp hc)
        · intro x hx
          rcases List.mem_map.mp hx with ⟨r, _, hrx⟩
          exact hrx.symm
    · intro g
      rw [S2P.filter_fst_cmap_blocks g (fun h => S2P.genreGroupRows df nM h)
        (S2P.selectedGenres df nG) hnd]
      by_cases hmem : g ∈ S2P.selectedGenres df nG
      · rw [if_pos hmem, List.length_map]
        rw [S2P.length_genreGroupRows]
        omega
      · rw [if_neg hmem]
        simp

/-- Witness for C4 at a concrete frame (three rows, two genres,
`top_n_genres = 5`, `top_n_movies = 1`). -/
theorem c4_group_counts_witness :
    ∃ rf, S2P.top_genres_top_movies
        ⟨["title", "star_rating", "genre"],
         [⟨"A", some 8, none, "Comedy"⟩, ⟨"B", some 9, none, "Drama"⟩,
          ⟨"C", none, none, "Comedy"⟩]⟩ 5 1 = .ok rf
      ∧ (S2P.uniqueInOrder (rf.entries.map Prod.fst)).length
          = min 5 (S2P.uniqueInOrder (S2P.genreList
              ⟨["title", "star_rating", "genre"],
               [⟨"A", some 8, none, "Comedy"⟩, ⟨"B", some 9, none, "Drama"⟩,
                ⟨"C", none, none, "Comedy"⟩]⟩)).length
      ∧ ∀ g : String,
          ((rf.entries.filter (fun e => e.1 == g)).length ≤ 1) :=
  c4_group_counts
    ⟨["title", "star_rating", "genre"],
     [⟨"A", some 8, none, "Comedy"⟩, ⟨"B", some 9, none, "Drama"⟩,
      ⟨"C", none, none, "Comedy"⟩]⟩ 5 1 (by decide) (by decide) (by decide)

/-- C10: when the input has a `genre` column but no `star_rating` column,
the ranker does not fail, each selected genre's group is the first
`top_n_movies` records of that genre in original input order (no rating
sort), and the output omits the `star_rating` column. -/
theorem c10_without_rating_column (df : S2P.MDataFrame) (nG nM : Nat)
    (hcol : "genre" ∈ df.columns) (hsr : "star_rating" ∉ df.columns) :
    ∃ rf, S2P.top_genres_top_movies df nG nM = .ok rf
      ∧ rf.entries = S2P.cmap
          (fun g => ((df.rows.filter (fun r => r.genre == g)).take nM).map
            (fun r => (g, r)))
          (S2P.selectedGenres df nG)
      ∧ "star_rating" ∉ rf.columns := by
  have hgrp : ∀ g, S2P.genreGroupRows df nM g
      = (df.rows.filter (fun r => r.genre == g)).take nM := by
    intro g
    unfold S2P.genreGroupRows
    rw [if_neg hsr]
  unfold S2P.top_genres_top_movies
  rw [if_pos hcol]
  by_cases hemp : (S2P.selectedGenres df nG).isEmpty
  · have hgs : S2P.selectedGenres df nG = [] := List.isEmpty_iff.mp hemp
    refine ⟨⟨[], []⟩, by rw [if_pos hemp], ?_, by simp⟩
    rw [hgs]
    rfl
  · refine ⟨⟨"genre_group" :: S2P.resultColumns df,
      S2P.cmap (fun g => (S2P.genreGroupRows df nM g).map (fun r => (g, r)))
        (S2P.selectedGenres df nG)⟩, by rw [if_neg hemp], ?_, ?_⟩
    · show S2P.cmap _ _ = S2P.cmap _ _
      congr 1
      funext g
      rw [hgrp g]
    · intro hc
      rcases List.mem_cons.mp hc with h | h
      · exact absurd h (by decide)
      · have := (List.mem_filter.mp h).2
        rw [decide_eq_true_eq] at this
        exact hsr this

/-- Witness for C10 at a concrete frame with no `star_rating` column: the
group of the only genre keeps the input order of its first two records. -/
theorem c10_without_rating_column_witness :
    ∃ rf, S2P.top_genres_top_movies
        ⟨["title", "genre"],
         [⟨"A", none, none, "Comedy"⟩, ⟨"B", some 9, none, "Comedy"⟩,
          ⟨"C", some 5, none, "Comedy"⟩]⟩ 1 2 = .ok rf
      ∧ rf.entries = S2P.cmap
          (fun g => ((([⟨"A", none, none, "Comedy"⟩, ⟨"B", some 9, none, "Comedy"⟩,
              ⟨"C", some 5, none, "Comedy"⟩] : List S2P.MovieRow).filter
                (fun r => r.genre == g)).take 2).map (fun r => (g, r)))
          (S2P.selectedGenres
            ⟨["title", "genre"],
             [⟨"A", none, none, "Comedy"⟩, ⟨"B", some 9, none, "Comedy"⟩,
              ⟨"C", some 5, none, "Comedy"⟩]⟩ 1)
      ∧ "star_rating" ∉ rf.columns :=
  c10_without_rating_column
    ⟨["title", "genre"],
     [⟨"A", none, none, "Comedy"⟩, ⟨"B", some 9, none, "Comedy"⟩,
      ⟨"C", some 5, none, "Comedy"⟩]⟩ 1 2 (by decide) (by decide)

namespace S2P

theorem char_beq_false {c d : Char} (h : c.toNat ≠ d.toNat) :
    (c == d) = false := by
  rcases hb : c == d with _ | _
  · rfl
  · exact absurd (congrArg Char.toNat (eq_of_beq hb)) h

theorem isDigitB_iff (c : Char) :
    isDigitB c = true ↔ 48 ≤ c.toNat ∧ c.toNat ≤ 57 := by
  simp [isDigitB]

theorem lookupL_eq_none [DecidableEq κ] {β : Type} (k : κ)
    (ps : List (κ × β)) (h : ∀ kv ∈ ps, k ≠ kv.1) :
    lookupL k ps = none := by
  induction ps with
  | nil => rfl
  | cons kv rest ih =>
    rcases kv with ⟨k', v⟩
    simp only [lookupL]
    rw [if_neg (h (k', v) (List.mem_cons_self _ _))]
    exact ih (fun kv hkv => h kv (List.mem_cons_of_mem _ hkv))

theorem lookupL_mem [DecidableEq κ] {β : Type} {k : κ} {v : β}
    {ps : List (κ × β)} (h : lookupL k ps = some v) : (k, v) ∈ ps := by
  induction ps with
  | nil => exact absurd h (by simp [lookupL])
  | cons kv rest ih =>
    rcases kv with ⟨k', v'⟩
    simp only [lookupL] at h
    split at h
    next heq =>
      cases h
      subst heq
      exact List.mem_cons_self _ _
    next => exact List.mem_cons_of_mem _ (ih h)

theorem polishPairs_keys_big :
    polishPairs.all (fun kv => decide (57 < kv.1.toNat)) = true := by decide

theorem polishFoldChar_digit (c : Char) (h : isDigitB c = true) :
    polishFoldChar c = c := by
  have hc := (isDigitB_iff c).mp h
  have hlook : lookupL c polishPairs = none := by
    refine lookupL_eq_none c polishPairs ?_
    intro kv hkv heq
    have := List.all_eq_true.mp polishPairs_keys_big kv hkv
    rw [decide_eq_true_eq] at this
    rw [← heq] at this
    omega
  unfold polishFoldChar
  rw [hlook]
  unfold Char.toLower
  rw [if_neg (by omega)]

theorem isWordCharB_digit (c : Char) (h : isDigitB c = true) :
    isWordCharB c = true := by
  have hc := (isDigitB_iff c).mp h
  unfold isWordCharB
  have h1 : (48 ≤ c.toNat && c.toNat ≤ 57) = true := by
    rw [Bool.and_eq_true]
    exact ⟨decide_eq_true hc.1, decide_eq_true hc.2⟩
  rw [h1]
  rfl

theorem isStripped_digit (c : Char) (h : isDigitB c = true) :
    isStripped c = false := by
  have hc := (isDigitB_iff c).mp h
  unfold isStripped
  have h1 : (' ' : Char).toNat = 32 := rfl
  have h2 : ('\t' : Char).toNat = 9 := rfl
  have h3 : ('\r' : Char).toNat = 13 := rfl
  have h4 : ('\n' : Char).toNat = 10 := rfl
  rw [char_beq_false (by omega), char_beq_false (by omega),
    char_beq_false (by omega), char_beq_false (by omega)]
  rfl

theorem monthPairs_keys_ok :
    monthPairs.all
      (fun kv => !kv.1.isEmpty && kv.1.all isWordCharB) = true := by decide

theorem monthPairs_vals_ok :
    monthPairs.all
      (fun kv => !kv.2.isEmpty && kv.2.all isWordCharB) = true := by decide

theorem monthPairs_vals_fold_ok :
    monthPairs.all
      (fun kv => !(kv.2.map polishFoldChar).isEmpty
        && (kv.2.map polishFoldChar).all isWordCharB) = true := by decide

theorem monthPairs_vals_not_keys :
    monthPairs.all
      (fun kv =>
        (lookupL (kv.2.map polishFoldChar) monthPairs).isNone) = true := by
  decide

theorem monthPairs_vals_lower_eq :
    monthPairs.all
      (fun kv =>
        kv.2.map Char.toLower
          == (kv.2.map polishFoldChar).map Char.toLower) = true := by decide

theorem monthPairs_keys_head_not_digit :
    monthPairs.all
      (fun kv => kv.1.head?.all (fun c => !isDigitB c)) = true := by decide

theorem lookupL_digits_monthPairs (c : Char) (cs : List Char)
    (h : isDigitB c = true) :
    lookupL (c :: cs) monthPairs = none := by
  refine lookupL_eq_none (c :: cs) monthPairs ?_
  intro kv hkv heq
  have hh := List.all_eq_true.mp monthPairs_keys_head_not_digit kv hkv
  rw [← heq] at hh
  simp only [List.head?] at hh
  rw [Option.all_some] at hh
  rw [h] at hh
  exact absurd hh (by decide)

end S2P

namespace S2P

theorem trimChars_eq_self (l : List Char)
    (h1 : ∃ c cs, l = c :: cs ∧ isStripped c = false)
    (h2 : ∃ c cs, l.reverse = c :: cs ∧ isStripped c = false) :
    trimChars l = l := by
  obtain ⟨c, cs, hl, hc⟩ := h1
  obtain ⟨c', cs', hr, hc'⟩ := h2
  unfold trimChars
  have hd1 : l.dropWhile isStripped = l := by
    rw [hl, List.dropWhile_cons, hc]
    simp
  rw [hd1]
  have hd2 : l.reverse.dropWhile isStripped = l.reverse := by
    rw [hr, List.dropWhile_cons, hc']
    simp
  rw [hd2, List.reverse_reverse]

theorem map_id_of_mem (f : α → α) (l : List α) (h : ∀ c ∈ l, f c = c) :
    l.map f = l := by
  induction l with
  | nil => rfl
  | cons a t ih =>
    rw [List.map_cons, h a (List.mem_cons_self a t),
      ih (fun c hc => h c (List.mem_cons_of_mem a hc))]

theorem replScan_words (w : List Char) (hw : ∀ c ∈ w, isWordCharB c = true) :
    ∀ (rest acc : List Char),
      replScan (w ++ rest) acc = replScan rest (w.reverse ++ acc) := by
  induction w with
  | nil => intro rest acc; rfl
  | cons c w' ih =>
    intro rest acc
    have hc : isWordCharB c = true := hw c (List.mem_cons_self c w')
    rw [List.cons_append]
    show (if isWordCharB c then replScan (w' ++ rest) (c :: acc)
          else applyWord acc.reverse ++ c :: replScan (w' ++ rest) [])
        = replScan rest ((c :: w').reverse ++ acc)
    rw [if_pos hc, ih (fun x hx => hw x (List.mem_cons_of_mem c hx)) rest (c :: acc)]
    rw [List.reverse_cons, List.append_assoc]
    rfl

theorem replScan_space (rest acc : List Char) :
    replScan (' ' :: rest) acc
      = applyWord acc.reverse ++ ' ' :: replScan rest [] := by
  show (if isWordCharB ' ' then replScan rest (' ' :: acc)
      else applyWord acc.reverse ++ ' ' :: replScan rest []) = _
  rw [if_neg (by decide)]

theorem replaceMonths_shape (A B C : List Char)
    (hA : ∀ c ∈ A, isWordCharB c = true)
    (hB : ∀ c ∈ B, isWordCharB c = true)
    (hC : ∀ c ∈ C, isWordCharB c = true) :
    replaceMonths (A ++ ' ' :: B ++ ' ' :: C)
      = applyWord A ++ ' ' :: applyWord B ++ ' ' :: applyWord C := by
  unfold replaceMonths
  rw [List.append_assoc, List.cons_append]
  rw [replScan_words A hA (' ' :: (B ++ ' ' :: C)) [], List.append_nil,
    replScan_space, List.reverse_reverse]
  rw [replScan_words B hB (' ' :: C) [], List.append_nil,
    replScan_space, List.reverse_reverse]
  have hCend : replScan C [] = applyWord C := by
    have := replScan_words C hC [] []
    rw [List.append_nil, List.append_nil] at this
    rw [this]
    show applyWord C.reverse.reverse = applyWord C
    rw [List.reverse_reverse]
  rw [hCend]
  simp [List.append_assoc, List.cons_append]

theorem tokScan_words (w : List Char) (hw : ∀ c ∈ w, isWordCharB c = true) :
    ∀ (rest acc : List Char),
      tokScan (w ++ rest) acc = tokScan rest (w.reverse ++ acc) := by
  induction w with
  | nil => intro rest acc; rfl
  | cons c w' ih =>
    intro rest acc
    have hc : isWordCharB c = true := hw c (List.mem_cons_self c w')
    rw [List.cons_append]
    show (if isWordCharB c then tokScan (w' ++ rest) (c :: acc)
          else if acc.isEmpty then tokScan (w' ++ rest) []
            else acc.reverse :: tokScan (w' ++ rest) [])
        = tokScan rest ((c :: w').reverse ++ acc)
    rw [if_pos hc, ih (fun x hx => hw x (List.mem_cons_of_mem c hx)) rest (c :: acc)]
    rw [List.reverse_cons, List.append_assoc]
    rfl

theorem tokScan_space (rest : List Char) (acc : List Char) (hne : acc ≠ []) :
    tokScan (' ' :: rest) acc = acc.reverse :: tokScan rest [] := by
  show (if isWordCharB ' ' then tokScan rest (' ' :: acc)
      else if acc.isEmpty then tokScan rest []
        else acc.reverse :: tokScan rest []) = _
  rw [if_neg (by decide)]
  cases acc with
  | nil => exact absurd rfl hne
  | cons a t => rfl

theorem tokScan_end (acc : List Char) (hne : acc ≠ []) :
    tokScan [] acc = [acc.reverse] := by
  show (if acc.isEmpty then [] else [acc.reverse]) = [acc.reverse]
  cases acc with
  | nil => exact absurd rfl hne
  | cons a t => rfl

theorem tokensOf_shape (A B C : List Char)
    (hA : ∀ c ∈ A, isWordCharB c = true) (hAne : A ≠ [])
    (hB : ∀ c ∈ B, isWordCharB c = true) (hBne : B ≠ [])
    (hC : ∀ c ∈ C, isWordCharB c = true) (hCne : C ≠ []) :
    tokensOf (A ++ ' ' :: B ++ ' ' :: C) = [A, B, C] := by
  have hArev : A.reverse ≠ [] := by
    intro hc
    exact hAne (by simpa using congrArg List.reverse hc)
  have hBrev : B.reverse ≠ [] := by
    intro hc
    exact hBne (by simpa using congrArg List.reverse hc)
  have hCrev : C.reverse ≠ [] := by
    intro hc
    exact hCne (by simpa using congrArg List.reverse hc)
  unfold tokensOf
  rw [List.append_assoc, List.cons_append]
  rw [tokScan_words A hA (' ' :: (B ++ ' ' :: C)) [], List.append_nil,
    tokScan_space _ _ hArev, List.reverse_reverse]
  rw [tokScan_words B hB (' ' :: C) [], List.append_nil,
    tokScan_space _ _ hBrev, List.reverse_reverse]
  have hCend : tokScan C [] = [C] := by
    have := tokScan_words C hC [] []
    rw [List.append_nil, List.append_nil] at this
    rw [this, tokScan_end _ hCrev, List.reverse_reverse]
  rw [hCend]

end S2P

namespace S2P

theorem trim_digit_frame (dcs X ycs : List Char) (hdne : dcs ≠ [])
    (hddig : ∀ c ∈ dcs, isDigitB c = true) (hyne : ycs ≠ [])
    (hydig : ∀ c ∈ ycs, isDigitB c = true) :
    trimChars (dcs ++ ' ' :: X ++ ' ' :: ycs)
      = dcs ++ ' ' :: X ++ ' ' :: ycs := by
  refine trimChars_eq_self _ ?_ ?_
  · cases dcs with
    | nil => exact absurd rfl hdne
    | cons d0 dcs' =>
      refine ⟨d0, (dcs' ++ ' ' :: X) ++ ' ' :: ycs, ?_, ?_⟩
      · simp [List.cons_append]
      · exact isStripped_digit d0 (hddig d0 (List.mem_cons_self d0 dcs'))
  · rcases List.eq_nil_or_concat ycs with hnil | ⟨ys', ylast, hy⟩
    · exact absurd hnil hyne
    · have hmem : ylast ∈ ycs := by
        rw [hy]
        simp [List.concat_eq_append]
      have hrev : (dcs ++ ' ' :: X ++ ' ' :: ycs).reverse
          = ylast :: (ys'.reverse ++ [' '] ++ X.reverse ++ [' ']
              ++ dcs.reverse) := by
        rw [hy]
        simp [List.reverse_append, List.concat_eq_append]
      exact ⟨ylast, _, hrev, isStripped_digit ylast (hydig ylast hmem)⟩

theorem normalize_digit_frame (dcs X ycs : List Char)
    (hddig : ∀ c ∈ dcs, isDigitB c = true)
    (hydig : ∀ c ∈ ycs, isDigitB c = true) :
    normalizeChars (dcs ++ ' ' :: X ++ ' ' :: ycs)
      = dcs ++ ' ' :: X.map polishFoldChar ++ ' ' :: ycs := by
  unfold normalizeChars
  have hsp : polishFoldChar ' ' = ' ' := by decide
  rw [List.map_append, List.map_append, List.map_cons, List.map_cons, hsp,
    map_id_of_mem _ dcs (fun c hc => polishFoldChar_digit c (hddig c hc)),
    map_id_of_mem _ ycs (fun c hc => polishFoldChar_digit c (hydig c hc))]

theorem applyWord_digits (dcs : List Char) (hdne : dcs ≠ [])
    (hddig : ∀ c ∈ dcs, isDigitB c = true) : applyWord dcs = dcs := by
  cases dcs with
  | nil => exact absurd rfl hdne
  | cons d0 dcs' =>
    unfold applyWord
    rw [lookupL_digits_monthPairs d0 dcs'
      (hddig d0 (List.mem_cons_self d0 dcs'))]

end S2P

/-- C1: for every date string built from a day-digit run, a recognised
Polish month token (any letter case, with or without diacritics) and a
year-digit run, the Date Validator's parsing stage produces the same
result as for the equivalent string with the English month name
substituted manually; the substitution replaces whole words only (a token
inside a longer word such as `majowka` is not altered), and both
`3 maja 2023` and `3 MAJA 2023` validate to 2023-05-03. -/
theorem c1_polish_month_equivalence :
    (∀ (dcs ycs : List Char) (rawTok : String) (engChars : List Char),
      dcs ≠ [] → (∀ c ∈ dcs, S2P.isDigitB c = true) →
      ycs ≠ [] → (∀ c ∈ ycs, S2P.isDigitB c = true) →
      S2P.lookupL (rawTok.data.map S2P.polishFoldChar) S2P.monthPairs
        = some engChars →
      S2P.pvdParse (.asStr (String.mk
          (dcs ++ ' ' :: rawTok.data ++ ' ' :: ycs)))
        = S2P.pvdParse (.asStr (String.mk
            (dcs ++ ' ' :: engChars ++ ' ' :: ycs))))
    ∧ S2P.replaceMonths "majowka".data = "majowka".data
    ∧ S2P.parse_validate_date (.asStr "3 maja 2023") "Data" none none
        = .ok ⟨2023, 5, 3⟩
    ∧ S2P.parse_validate_date (.asStr "3 MAJA 2023") "Data" none none
        = .ok ⟨2023, 5, 3⟩ := by
  refine ⟨?_, by rfl, by rfl, by rfl⟩
  intro dcs ycs rawTok engChars hdne hddig hyne hydig hlook
  have hmem : (rawTok.data.map S2P.polishFoldChar, engChars) ∈ S2P.monthPairs :=
    S2P.lookupL_mem hlook
  have hkey := List.all_eq_true.mp S2P.monthPairs_keys_ok _ hmem
  rw [Bool.and_eq_true] at hkey
  have hBne : rawTok.data.map S2P.polishFoldChar ≠ [] := by
    intro hc
    rw [hc] at hkey
    exact Bool.false_ne_true hkey.1
  have hBword : ∀ c ∈ rawTok.data.map S2P.polishFoldChar,
      S2P.isWordCharB c = true :=
    fun c hc => List.all_eq_true.mp hkey.2 c hc
  have hval := List.all_eq_true.mp S2P.monthPairs_vals_ok _ hmem
  rw [Bool.and_eq_true] at hval
  have hEne : engChars ≠ [] := by
    intro hc
    rw [hc] at hval
    exact Bool.false_ne_true hval.1
  have hEword : ∀ c ∈ engChars, S2P.isWordCharB c = true :=
    fun c hc => List.all_eq_true.mp hval.2 c hc
  have hvalf := List.all_eq_true.mp S2P.monthPairs_vals_fold_ok _ hmem
  rw [Bool.and_eq_true] at hvalf
  have hMne : engChars.map S2P.polishFoldChar ≠ [] := by
    intro hc
    rw [hc] at hvalf
    exact Bool.false_ne_true hvalf.1
  have hMword : ∀ c ∈ engChars.map S2P.polishFoldChar,
      S2P.isWordCharB c = true :=
    fun c hc => List.all_eq_true.mp hvalf.2 c hc
  have hnotkey : S2P.lookupL (engChars.map S2P.polishFoldChar)
      S2P.monthPairs = none := by
    have h := List.all_eq_true.mp S2P.monthPairs_vals_not_keys _ hmem
    exact Option.isNone_iff_eq_none.mp h
  have hlower : engChars.map Char.toLower
      = (engChars.map S2P.polishFoldChar).map Char.toLower :=
    eq_of_beq (List.all_eq_true.mp S2P.monthPairs_vals_lower_eq _ hmem)
  have hdword : ∀ c ∈ dcs, S2P.isWordCharB c = true :=
    fun c hc => S2P.isWordCharB_digit c (hddig c hc)
  have hyword : ∀ c ∈ ycs, S2P.isWordCharB c = true :=
    fun c hc => S2P.isWordCharB_digit c (hydig c hc)
  show S2P.parseDMY (S2P.replaceMonths (S2P.normalizeChars
      (S2P.trimChars (dcs ++ ' ' :: rawTok.data ++ ' ' :: ycs))))
    = S2P.parseDMY (S2P.replaceMonths (S2P.normalizeChars
        (S2P.trimChars (dcs ++ ' ' :: engChars ++ ' ' :: ycs))))
  rw [S2P.trim_digit_frame dcs rawTok.data ycs hdne hddig hyne hydig,
    S2P.trim_digit_frame dcs engChars ycs hdne hddig hyne hydig,
    S2P.normalize_digit_frame dcs rawTok.data ycs hddig hydig,
    S2P.normalize_digit_frame dcs engChars ycs hddig hydig,
    S2P.replaceMonths_shape dcs (rawTok.data.map S2P.polishFoldChar) ycs
      hdword hBword hyword,
    S2P.replaceMonths_shape dcs (engChars.map S2P.polishFoldChar) ycs
      hdword hMword hyword,
    S2P.applyWord_digits dcs hdne hddig, S2P.applyWord_digits ycs hyne hydig]
  have hAW1 : S2P.applyWord (rawTok.data.map S2P.polishFoldChar)
      = engChars := by
    unfold S2P.applyWord
    rw [hlook]
  have hAW2 : S2P.applyWord (engChars.map S2P.polishFoldChar)
      = engChars.map S2P.polishFoldChar := by
    unfold S2P.applyWord
    rw [hnotkey]
  rw [hAW1, hAW2]
  unfold S2P.parseDMY
  rw [S2P.tokensOf_shape dcs engChars ycs hdword hdne hEword hEne hyword hyne,
    S2P.tokensOf_shape dcs (engChars.map S2P.polishFoldChar) ycs
      hdword hdne hMword hMne hyword hyne]
  show S2P.parseTriple dcs engChars ycs
    = S2P.parseTriple dcs (engChars.map S2P.polishFoldChar) ycs
  unfold S2P.parseTriple
  rw [hlower]

/-- Witness for C1 at concrete inputs: `3 maja 2023` parses identically to
the manually substituted `3 May 2023`. -/
theorem c1_polish_month_equivalence_witness :
    S2P.pvdParse (.asStr (String.mk
        ("3".data ++ ' ' :: "maja".data ++ ' ' :: "2023".data)))
      = S2P.pvdParse (.asStr (String.mk
          ("3".data ++ ' ' :: "May".data ++ ' ' :: "2023".data))) :=
  c1_polish_month_equivalence.1 "3".data "2023".data "maja" "May".data
    (by decide) (by decide) (by decide) (by decide) (by decide)
